import Mathlib

/-!
Shallow embedding of the IMT timetable app (src/streamlit_app.py).

Strings are modelled as lists of characters.  Python string helpers
(`strip`, `replace`, `split`) are modelled below; the fixed regular
expression `class_pattern` is modelled by a small backtracking regex
engine whose candidate lists reproduce the priority order of Python's
`re` module (greedy repetitions try longest first, lazy repetitions try
shortest first, `re.match` takes the first candidate anchored at the
start).  The PDF table walk of `parse_timetable_pdf` and the selection
filter of `main` are modelled as explicit recursive functions; reading
the unbound variable `current_day` (a `NameError` in Python) and calling
`.replace` on a `None` header cell are modelled by `Except Unit`.
-/

abbrev Str := List Char

/-- Python whitespace characters (ASCII fragment of `str.isspace`). -/
def pyIsSpace (c : Char) : Bool :=
  c = ' ' || c = '\t' || c = '\n' || c = '\r' || c = '\x0b' || c = '\x0c'

def pyLStrip : Str → Str
  | [] => []
  | c :: cs => if pyIsSpace c then pyLStrip cs else c :: cs

def pyRStrip (s : Str) : Str := (pyLStrip s.reverse).reverse

/-- Python `str.strip()`. -/
def pyStrip (s : Str) : Str := pyLStrip (pyRStrip s)

/-- Python `s.replace('\n', ' ')`. -/
def pyReplaceNlSpace (s : Str) : Str := s.map (fun c => if c = '\n' then ' ' else c)

/-- Python `s.replace('\n', '')`. -/
def pyRemoveNl (s : Str) : Str := s.filter (fun c => !(c = '\n'))

/-- Python `s.split('\n\n')` (non-overlapping, left to right). -/
def splitNN : Str → List Str
  | [] => [[]]
  | '\n' :: '\n' :: rest => [] :: splitNN rest
  | c :: rest =>
    match splitNN rest with
    | [] => [[c]]
    | p :: ps => (c :: p) :: ps

/-! Character classes of the regex
`([A-Z\d\w-]+)-([A-Z])\((\d+)\)-\s*([A-Z\s/]+?)\s*[\(\{](.+?)[\)\}]`. -/

def upperChar (c : Char) : Bool := 'A' ≤ c && c ≤ 'Z'

def digitChar (c : Char) : Bool := '0' ≤ c && c ≤ '9'

/-- ASCII fragment of the `\w` class. -/
def wordChar (c : Char) : Bool := c.isAlpha || c.isDigit || c = '_'

/-- The class `[A-Z\d\w-]`. -/
def courseChar (c : Char) : Bool := upperChar c || digitChar c || wordChar c || c = '-'

/-- The class `[A-Z\s/]`. -/
def facChar (c : Char) : Bool := upperChar c || pyIsSpace c || c = '/'

/-- The class `.` (no DOTALL: anything but a newline). -/
def dotChar (c : Char) : Bool := !(c = '\n')

/-- The class `[\(\{]`. -/
def openChar (c : Char) : Bool := c = '(' || c = '\x7b'

/-- The class `[\)\}]`. -/
def closeChar (c : Char) : Bool := c = ')' || c = '\x7d'

/-- Regex abstract syntax: literals, character classes, capture groups,
concatenation, and greedy/lazy repetition of a character class with a
minimum count (covering `+`, `\s*`, `+?` of the source pattern). -/
inductive Re where
  | lit : Char → Re
  | cls : (Char → Bool) → Re
  | grp : Nat → Re → Re
  | cat : Re → Re → Re
  | repG : (Char → Bool) → Nat → Re
  | repL : (Char → Bool) → Nat → Re

/-- Length of the longest prefix all of whose characters satisfy `p`. -/
def runLen (p : Char → Bool) : Str → Nat
  | [] => 0
  | c :: cs => if p c then runLen p cs + 1 else 0

/-- `countDown n top = [top, top-1, ..., top-n+1]`. -/
def countDown : Nat → Nat → List Nat
  | 0, _ => []
  | n + 1, top => top :: countDown n (top - 1)

/-- `countUp n lo = [lo, lo+1, ..., lo+n-1]`. -/
def countUp : Nat → Nat → List Nat
  | 0, _ => []
  | n + 1, lo => lo :: countUp n (lo + 1)

abbrev Groups := List (Nat × Str)

/-- All ways a regex can match a prefix of `s`, in backtracking priority
order, each with its captured groups and the remaining suffix. -/
def reMatches : Re → Str → List (Groups × Str)
  | .lit _, [] => []
  | .lit a, c :: rest => if c = a then [([], rest)] else []
  | .cls _, [] => []
  | .cls p, c :: rest => if p c then [([], rest)] else []
  | .grp i r, s =>
    (reMatches r s).map (fun gr => ((i, s.take (s.length - gr.2.length)) :: gr.1, gr.2))
  | .cat a b, s =>
    (reMatches a s).flatMap
      (fun gr => (reMatches b gr.2).map (fun gr2 => (gr.1 ++ gr2.1, gr2.2)))
  | .repG p m, s => (countDown (runLen p s + 1 - m) (runLen p s)).map (fun k => (([] : Groups), s.drop k))
  | .repL p m, s => (countUp (runLen p s + 1 - m) m).map (fun k => (([] : Groups), s.drop k))

/-- Python `pattern.match(s)`: the highest-priority match anchored at the
start of `s`, if any. -/
def reMatch (r : Re) (s : Str) : Option (Groups × Str) := (reMatches r s).head?

/-- `match.group(i)` for our fixed patterns (every group matches exactly once). -/
def getGroup (gs : Groups) (i : Nat) : Str :=
  match gs.find? (fun g => g.1 == i) with
  | some g => g.2
  | none => []

/-! The source pattern, decomposed into its right-nested suffixes. -/

def pat13 : Re := .cls closeChar
def pat12 : Re := .cat (.grp 5 (.repL dotChar 1)) pat13
def pat11 : Re := .cat (.cls openChar) pat12
def pat10 : Re := .cat (.repG pyIsSpace 0) pat11
def pat9 : Re := .cat (.grp 4 (.repL facChar 1)) pat10
def pat8 : Re := .cat (.repG pyIsSpace 0) pat9
def pat7 : Re := .cat (.lit '-') pat8
def pat6 : Re := .cat (.lit ')') pat7
def pat5 : Re := .cat (.grp 3 (.repG digitChar 1)) pat6
def pat4 : Re := .cat (.lit '(') pat5
def pat3 : Re := .cat (.grp 2 (.cls upperChar)) pat4
def pat2 : Re := .cat (.lit '-') pat3

/-- The compiled `class_pattern` of the source. -/
def class_pattern : Re := .cat (.grp 1 (.repG courseChar 1)) pat2

/-- One appended dictionary of `parse_timetable_pdf` / `main`.  The
parser never sets `Course_Name`; the filter loop in `main` adds it to
selected records (dict key insertion, modelled by the `Option`). -/
structure ClassRec where
  Day : Str
  Time : Str
  Course_Abbreviation : Str
  Section : Str
  Faculty : Str
  Venue : Str
  Course_Name : Option Str
deriving DecidableEq

instance : DecidableEq (Except Unit (List ClassRec))
  | .error a, .error b =>
    isTrue (by cases a; cases b; rfl)
  | .error _, .ok _ => isFalse (fun h => Except.noConfusion h)
  | .ok _, .error _ => isFalse (fun h => Except.noConfusion h)
  | .ok xs, .ok ys =>
    if h : xs = ys then isTrue (by rw [h]) else isFalse (fun he => h (by injection he))

/-- `time_slots[i].replace('\n', '') if i < len(time_slots) else "N/A"`;
a `None` header cell inside bounds is an `AttributeError`. -/
def timeSlotAt (time_slots : List (Option Str)) (i : Nat) : Except Unit Str :=
  if i < time_slots.length then
    match (time_slots.get? i).join with
    | some t => .ok (pyRemoveNl t)
    | none => .error ()
  else .ok ("N/A".data)

/-- The body of `for entry in entries` (lines 53-66): match the pattern
against the entry with newlines replaced by spaces; on a match, build the
record, reading `current_day` (a `NameError` if still unbound). -/
def processEntry (current_day : Option Str) (time_slots : List (Option Str)) (i : Nat)
    (entry : Str) : Except Unit (List ClassRec) :=
  match reMatch class_pattern (pyReplaceNlSpace entry) with
  | none => .ok []
  | some gr =>
    match timeSlotAt time_slots i with
    | .error e => .error e
    | .ok time_slot =>
      match current_day with
      | none => .error ()
      | some d =>
        .ok [⟨d, time_slot, pyStrip (getGroup gr.1 1), pyStrip (getGroup gr.1 2),
              pyStrip (getGroup gr.1 4), pyStrip (getGroup gr.1 5), none⟩]

/-- Run two loop stages: the first raised exception propagates, otherwise
the produced record lists are concatenated in order. -/
def exSeq (x y : Except Unit (List ClassRec)) : Except Unit (List ClassRec) :=
  match x with
  | .error e => .error e
  | .ok xs =>
    match y with
    | .error e => .error e
    | .ok ys => .ok (xs ++ ys)

def exConcat : List (Except Unit (List ClassRec)) → Except Unit (List ClassRec)
  | [] => .ok []
  | x :: rest => exSeq x (exConcat rest)

/-- `if cell and cell.strip(): entries = cell.strip().split('\n\n'); ...`. -/
def processCell (current_day : Option Str) (time_slots : List (Option Str)) (i : Nat)
    (cell : Option Str) : Except Unit (List ClassRec) :=
  match cell with
  | none => .ok []
  | some c =>
    if c ≠ [] ∧ pyStrip c ≠ [] then
      exConcat ((splitNN (pyStrip c)).map (processEntry current_day time_slots i))
    else .ok []

/-- `for i, cell in enumerate(row[1:], start=1)`. -/
def processCells (current_day : Option Str) (time_slots : List (Option Str)) :
    Nat → List (Option Str) → Except Unit (List ClassRec)
  | _, [] => .ok []
  | i, c :: cs =>
    exSeq (processCell current_day time_slots i c)
      (processCells current_day time_slots (i + 1) cs)

/-- `day_info = row[0]; if day_info and day_info.strip(): current_day = day_info.replace('\n', ' ')`. -/
def newDayAfterRow (current_day : Option Str) (row : List (Option Str)) : Option Str :=
  match row.head?.join with
  | some d => if pyStrip d ≠ [] then some (pyReplaceNlSpace d) else current_day
  | none => current_day

/-- One iteration of `for row in table[1:]` (an empty row would be an
`IndexError` at `row[0]`). -/
def processRow (current_day : Option Str) (time_slots : List (Option Str))
    (row : List (Option Str)) : Option Str × Except Unit (List ClassRec) :=
  match row with
  | [] => (current_day, .error ())
  | c0 :: cells =>
    let d := newDayAfterRow current_day (c0 :: cells)
    (d, processCells d time_slots 1 cells)

def processRows (time_slots : List (Option Str)) :
    Option Str → List (List (Option Str)) → Option Str × Except Unit (List ClassRec)
  | day, [] => (day, .ok [])
  | day, r :: rs =>
    ((processRows time_slots (processRow day time_slots r).1 rs).1,
      exSeq (processRow day time_slots r).2
        (processRows time_slots (processRow day time_slots r).1 rs).2)

/-- One iteration of `for page in pdf.pages`: `extract_table()` may
yield no table (`None` or empty), which is skipped; otherwise the first
row is the header and the rest are data rows. -/
def processPage (current_day : Option Str) (table : Option (List (List (Option Str)))) :
    Option Str × Except Unit (List ClassRec) :=
  match table with
  | none => (current_day, .ok [])
  | some [] => (current_day, .ok [])
  | some (header :: rows) => processRows header current_day rows

def processPages :
    Option Str → List (Option (List (List (Option Str)))) → Option Str × Except Unit (List ClassRec)
  | day, [] => (day, .ok [])
  | day, p :: ps =>
    ((processPages (processPage day p).1 ps).1,
      exSeq (processPage day p).2 (processPages (processPage day p).1 ps).2)

/-- `parse_timetable_pdf`: `current_day` starts unbound and persists
across rows and pages. -/
def parse_timetable_pdf (pages : List (Option (List (List (Option Str))))) :
    Except Unit (List ClassRec) :=
  (processPages none pages).2

/-! The selection filter of `main` (lines 120-126). -/

/-- Python `dict.get(key, default)` over an association list. -/
def dictGetD : List (Str × Str) → Str → Str → Str
  | [], _, d => d
  | (k, v) :: rest, key, d => if k = key then v else dictGetD rest key d

/-- `class_id = f"{cls['Course_Abbreviation']} - {cls['Section']}"`. -/
def classId (c : ClassRec) : Str := c.Course_Abbreviation ++ " - ".data ++ c.Section

/-- `cls['Course_Name'] = abbr_to_name.get(cls['Course_Abbreviation'], "Unknown Course")`. -/
def addName (abbr_to_name : List (Str × Str)) (c : ClassRec) : ClassRec :=
  { c with Course_Name := some (dictGetD abbr_to_name c.Course_Abbreviation ("Unknown Course".data)) }

/-- The filter loop of `main`.  Returns the built `my_classes` list and
the post-loop state of `all_classes`: appended records are the very dict
objects of the input list, mutated by the `Course_Name` assignment. -/
def filterClasses (abbr_to_name : List (Str × Str)) (user_selections : List Str) :
    List ClassRec → List ClassRec × List ClassRec
  | [] => ([], [])
  | c :: cs =>
    let rest := filterClasses abbr_to_name user_selections cs
    if classId c ∈ user_selections then
      (addName abbr_to_name c :: rest.1, addName abbr_to_name c :: rest.2)
    else (rest.1, c :: rest.2)

/-- The highest-priority way `r` can match a prefix of `s` is `x`. -/
def FirstMatch (r : Re) (s : Str) (x : Groups × Str) : Prop :=
  ∃ t, reMatches r s = x :: t

/-! ### Lemmas about `runLen`, `countDown`, `countUp` -/

theorem runLen_le_length (p : Char → Bool) (s : Str) : runLen p s ≤ s.length := by
  induction s with
  | nil => exact Nat.le_refl 0
  | cons c cs ih =>
    by_cases h : p c = true
    · simpa [runLen, h] using ih
    · simp [runLen, Bool.eq_false_iff.mpr h]

theorem runLen_append_all {p : Char → Bool} {a : Str} (b : Str) (h : ∀ c ∈ a, p c = true) :
    runLen p (a ++ b) = a.length + runLen p b := by
  induction a with
  | nil => simp
  | cons c cs ih =>
    have hc : p c = true := h c (List.mem_cons_self c cs)
    have ih2 := ih (fun d hd => h d (List.mem_cons_of_mem c hd))
    simp [runLen, hc, ih2]
    omega

theorem runLen_lt_of_mem_false {p : Char → Bool} {a : Str} {c : Char}
    (hc : c ∈ a) (hpc : p c = false) : runLen p a < a.length := by
  induction a with
  | nil => cases hc
  | cons d ds ih =>
    rcases List.mem_cons.mp hc with rfl | h
    · simp [runLen, hpc]
    · by_cases hd : p d = true
      · simpa [runLen, hd] using ih h
      · simp [runLen, Bool.eq_false_iff.mpr hd]

theorem runLen_append_of_lt {p : Char → Bool} {a : Str} (b : Str)
    (h : runLen p a < a.length) : runLen p (a ++ b) = runLen p a := by
  induction a with
  | nil => simp at h
  | cons c cs ih =>
    by_cases hc : p c = true
    · have h2 : runLen p cs < cs.length := by
        simp only [runLen, hc, if_true, List.length_cons] at h
        omega
      have h3 := ih h2
      rw [List.cons_append]
      simp only [runLen, hc, if_true]
      omega
    · simp [runLen, Bool.eq_false_iff.mpr hc]

theorem countDown_succ (n top : Nat) : countDown (n + 1) top = top :: countDown n (top - 1) := rfl

theorem countUp_succ (n lo : Nat) : countUp (n + 1) lo = lo :: countUp n (lo + 1) := rfl

theorem countUp_add (a b lo : Nat) : countUp (a + b) lo = countUp a lo ++ countUp b (lo + a) := by
  induction a generalizing lo with
  | zero => simp [countUp]
  | succ n ih =>
    have e1 : n + 1 + b = (n + b) + 1 := by omega
    rw [e1, countUp_succ, ih, countUp_succ]
    have e2 : lo + 1 + n = lo + (n + 1) := by omega
    rw [e2]
    rfl

theorem mem_countDown_le {k n top : Nat} (h : k ∈ countDown n top) : k ≤ top := by
  induction n generalizing top with
  | zero => cases h
  | succ n ih =>
    rcases List.mem_cons.mp h with rfl | h2
    · exact Nat.le_refl _
    · exact Nat.le_trans (ih h2) (Nat.sub_le _ _)

theorem mem_countUp {k n lo : Nat} (h : k ∈ countUp n lo) : lo ≤ k ∧ k < lo + n := by
  induction n generalizing lo with
  | zero => cases h
  | succ n ih =>
    rcases List.mem_cons.mp h with rfl | h2
    · exact ⟨Nat.le_refl _, by omega⟩
    · have := ih h2
      omega

/-! ### Lemmas about `reMatches` -/

theorem reMatches_lit_self (a : Char) (s : Str) : reMatches (.lit a) (a :: s) = [([], s)] := by
  simp [reMatches]

theorem reMatches_lit_nil {a c : Char} (s : Str) (h : ¬ c = a) :
    reMatches (.lit a) (c :: s) = [] := by
  simp [reMatches, h]

theorem reMatches_cls_pos {p : Char → Bool} {c : Char} (s : Str) (h : p c = true) :
    reMatches (.cls p) (c :: s) = [([], s)] := by
  simp [reMatches, h]

theorem reMatches_cls_head_nil {p : Char → Bool} {s : Str}
    (h : ∀ c, s.head? = some c → p c = false) : reMatches (.cls p) s = [] := by
  cases s with
  | nil => rfl
  | cons c cs => simp [reMatches, h c rfl]

theorem reMatches_cat (a b : Re) (s : Str) :
    reMatches (.cat a b) s =
      (reMatches a s).flatMap
        (fun gr => (reMatches b gr.2).map (fun gr2 => (gr.1 ++ gr2.1, gr2.2))) := rfl

theorem cat_nil_left {a b : Re} {s : Str} (h : reMatches a s = []) :
    reMatches (.cat a b) s = [] := by
  rw [reMatches_cat, h]
  rfl

theorem cat_nil_all {a b : Re} {s : Str} (h : ∀ x ∈ reMatches a s, reMatches b x.2 = []) :
    reMatches (.cat a b) s = [] := by
  rw [reMatches_cat]
  exact List.flatMap_eq_nil_iff.mpr (fun x hx => by rw [h x hx]; rfl)

theorem firstMatch_cat {a b : Re} {s : Str} {x y : Groups × Str}
    (ha : FirstMatch a s x) (hb : FirstMatch b x.2 y) :
    FirstMatch (.cat a b) s (x.1 ++ y.1, y.2) := by
  obtain ⟨t, ht⟩ := ha
  obtain ⟨u, hu⟩ := hb
  refine ⟨(u.map fun gr2 => (x.1 ++ gr2.1, gr2.2)) ++
    t.flatMap (fun gr => (reMatches b gr.2).map (fun gr2 => (gr.1 ++ gr2.1, gr2.2))), ?_⟩
  rw [reMatches_cat, ht, List.flatMap_cons, hu]
  simp

theorem firstMatch_cat_skip {a b : Re} {s : Str} {pre post : List (Groups × Str)}
    {x y : Groups × Str}
    (ha : reMatches a s = pre ++ x :: post)
    (hpre : ∀ z ∈ pre, reMatches b z.2 = [])
    (hb : FirstMatch b x.2 y) :
    FirstMatch (.cat a b) s (x.1 ++ y.1, y.2) := by
  obtain ⟨u, hu⟩ := hb
  refine ⟨(u.map fun gr2 => (x.1 ++ gr2.1, gr2.2)) ++
    (x :: post).tail.flatMap (fun gr => (reMatches b gr.2).map (fun gr2 => (gr.1 ++ gr2.1, gr2.2))), ?_⟩
  rw [reMatches_cat, ha, List.flatMap_append]
  have hnil : pre.flatMap (fun gr => (reMatches b gr.2).map (fun gr2 => (gr.1 ++ gr2.1, gr2.2))) = [] :=
    List.flatMap_eq_nil_iff.mpr (fun z hz => by rw [hpre z hz]; rfl)
  rw [hnil, List.nil_append, List.flatMap_cons, hu]
  simp

theorem firstMatch_grp {i : Nat} {r : Re} {s : Str} {x : Groups × Str} (h : FirstMatch r s x) :
    FirstMatch (.grp i r) s ((i, s.take (s.length - x.2.length)) :: x.1, x.2) := by
  obtain ⟨t, ht⟩ := h
  exact ⟨t.map (fun gr => ((i, s.take (s.length - gr.2.length)) :: gr.1, gr.2)),
    by simp [reMatches, ht]⟩

theorem reMatches_repG (p : Char → Bool) (m : Nat) (s : Str) :
    reMatches (.repG p m) s =
      (countDown (runLen p s + 1 - m) (runLen p s)).map (fun k => (([] : Groups), s.drop k)) := rfl

theorem reMatches_repL (p : Char → Bool) (m : Nat) (s : Str) :
    reMatches (.repL p m) s =
      (countUp (runLen p s + 1 - m) m).map (fun k => (([] : Groups), s.drop k)) := rfl

theorem firstMatch_repG_full {p : Char → Bool} {m : Nat} {a : Str} (b : Str)
    (hall : ∀ c ∈ a, p c = true) (hb : runLen p b = 0) (hm : m ≤ a.length) :
    FirstMatch (.repG p m) (a ++ b) ([], b) := by
  have hrun : runLen p (a ++ b) = a.length + 0 := by rw [runLen_append_all b hall, hb]
  have e : runLen p (a ++ b) + 1 - m = (a.length - m) + 1 := by omega
  refine ⟨(countDown (a.length - m) (a.length - 1)).map (fun k => (([] : Groups), (a ++ b).drop k)), ?_⟩
  rw [reMatches_repG, e, countDown_succ]
  rw [show runLen p (a ++ b) = a.length by omega]
  rw [List.map_cons, List.drop_left]

theorem reMatches_grp_repG (i : Nat) (p : Char → Bool) (m : Nat) (s : Str) :
    reMatches (.grp i (.repG p m)) s =
      (countDown (runLen p s + 1 - m) (runLen p s)).map
        (fun k => ([(i, s.take k)], s.drop k)) := by
  show ((countDown (runLen p s + 1 - m) (runLen p s)).map _).map _ = _
  rw [List.map_map]
  apply List.map_congr_left
  intro k hk
  have hk2 : k ≤ runLen p s := mem_countDown_le hk
  have hk3 : k ≤ s.length := Nat.le_trans hk2 (runLen_le_length p s)
  simp [List.length_drop]
  omega

theorem reMatches_grp_repL (i : Nat) (p : Char → Bool) (m : Nat) (s : Str) :
    reMatches (.grp i (.repL p m)) s =
      (countUp (runLen p s + 1 - m) m).map
        (fun k => ([(i, s.take k)], s.drop k)) := by
  show ((countUp (runLen p s + 1 - m) m).map _).map _ = _
  rw [List.map_map]
  apply List.map_congr_left
  intro k hk
  have hk2 : k ≤ runLen p s := by
    have := mem_countUp hk
    omega
  have hk3 : k ≤ s.length := Nat.le_trans hk2 (runLen_le_length p s)
  simp [List.length_drop]
  omega

/-! ### Character-class facts -/

theorem closeChar_cases {c : Char} (h : closeChar c = true) : c = ')' ∨ c = '\x7d' := by
  simpa [closeChar] using h

theorem openChar_cases {c : Char} (h : openChar c = true) : c = '(' ∨ c = '\x7b' := by
  simpa [openChar] using h

theorem dotChar_of_close {c : Char} (h : closeChar c = true) : dotChar c = true := by
  rcases closeChar_cases h with rfl | rfl <;> decide

theorem not_space_of_open {c : Char} (h : openChar c = true) : pyIsSpace c = false := by
  rcases openChar_cases h with rfl | rfl <;> decide

theorem facChar_open_false {c : Char} (h : openChar c = true) : facChar c = false := by
  rcases openChar_cases h with rfl | rfl <;> decide

theorem facChar_not_open {c : Char} (h : facChar c = true) : openChar c = false := by
  cases hop : openChar c
  · rfl
  · rw [facChar_open_false hop] at h
    cases h

theorem courseChar_of_upper {c : Char} (h : upperChar c = true) : courseChar c = true := by
  simp [courseChar, h]

theorem upper_ne_dash {c : Char} (h : upperChar c = true) : ¬ c = '-' := by
  intro e
  rw [e] at h
  cases h

theorem facChar_of_space {c : Char} (h : pyIsSpace c = true) : facChar c = true := by
  simp [facChar, h]

theorem getLast?_drop_of_lt {l : Str} : ∀ {n : Nat}, n < l.length → (l.drop n).getLast? = l.getLast? := by
  induction l with
  | nil => intro n h; simp at h
  | cons c cs ih =>
    intro n h
    cases n with
    | zero => rfl
    | succ m =>
      have hm : m < cs.length := by simpa using h
      have hcs : cs ≠ [] := by
        intro e
        rw [e] at hm
        simp at hm
      obtain ⟨d, ds, rfl⟩ := List.exists_cons_of_ne_nil hcs
      rw [List.drop_succ_cons, ih hm, List.getLast?_cons_cons]

/-- A dropped suffix of a list whose last element fails `p` still
contains an element failing `p`. -/
theorem exists_false_in_drop {p : Char → Bool} {l : Str} {n : Nat} (hn : n < l.length)
    (hlast : ∀ c, l.getLast? = some c → p c = false) :
    ∃ c ∈ l.drop n, p c = false := by
  have hne : l.drop n ≠ [] := by
    intro e
    have := congrArg List.length e
    simp [List.length_drop] at this
    omega
  obtain ⟨d, ds, hds⟩ := List.exists_cons_of_ne_nil hne
  have h1 : (l.drop n).getLast? = l.getLast? := getLast?_drop_of_lt hn
  have h2 : (l.drop n).getLast? = some ((l.drop n).getLast hne) := List.getLast?_eq_getLast _ hne
  refine ⟨(l.drop n).getLast hne, List.getLast_mem hne, ?_⟩
  exact hlast _ (by rw [← h1, h2])

/-- The lazy venue group consumes exactly the text before the first
closing bracket. -/
theorem venue_first {ven : Str} {cd : Char} (hv1 : ven ≠ [])
    (hv2 : ∀ c ∈ ven, closeChar c = false) (hv3 : ∀ c ∈ ven, dotChar c = true)
    (hcd : closeChar cd = true) :
    FirstMatch pat12 (ven ++ [cd]) ([(5, ven)], []) := by
  obtain ⟨v0, vt, rfl⟩ := List.exists_cons_of_ne_nil hv1
  have hrun : runLen dotChar ((v0 :: vt) ++ [cd]) = vt.length + 2 := by
    rw [runLen_append_all [cd] hv3]
    simp [runLen, dotChar_of_close hcd]
  have hcand : reMatches (.grp 5 (.repL dotChar 1)) ((v0 :: vt) ++ [cd]) =
      (countUp vt.length 1).map
        (fun k => ([(5, ((v0 :: vt) ++ [cd]).take k)], ((v0 :: vt) ++ [cd]).drop k)) ++
      ([(5, ((v0 :: vt) ++ [cd]).take (1 + vt.length))], ((v0 :: vt) ++ [cd]).drop (1 + vt.length)) ::
      [([(5, ((v0 :: vt) ++ [cd]).take (1 + vt.length + 1))], ((v0 :: vt) ++ [cd]).drop (1 + vt.length + 1))] := by
    rw [reMatches_grp_repL, hrun]
    have e1 : vt.length + 2 + 1 - 1 = vt.length + 2 := by omega
    rw [e1, countUp_add vt.length 2 1, List.map_append]
    rfl
  have e2 : 1 + vt.length = (v0 :: vt).length := by
    simp [Nat.add_comm]
  have hx1 : ((v0 :: vt) ++ [cd]).take (1 + vt.length) = v0 :: vt := by
    rw [e2, List.take_left]
  have hx2 : ((v0 :: vt) ++ [cd]).drop (1 + vt.length) = [cd] := by
    rw [e2, List.drop_left]
  rw [hx1, hx2] at hcand
  have hb : FirstMatch pat13 [cd] ([], []) :=
    ⟨[], by rw [show reMatches pat13 [cd] = reMatches (.cls closeChar) (cd :: []) from rfl,
        reMatches_cls_pos [] hcd]⟩
  have hpre : ∀ z ∈ (countUp vt.length 1).map
      (fun k => ([(5, ((v0 :: vt) ++ [cd]).take k)], ((v0 :: vt) ++ [cd]).drop k)),
      reMatches pat13 z.2 = [] := by
    intro z hz
    obtain ⟨k, hk, rfl⟩ := List.mem_map.mp hz
    obtain ⟨hk1, hk2⟩ := mem_countUp hk
    have hklt : k < (v0 :: vt).length := by
      simp
      omega
    show reMatches (.cls closeChar) _ = []
    apply reMatches_cls_head_nil
    intro c hc
    rw [List.drop_append_eq_append_drop, List.drop_eq_getElem_cons hklt] at hc
    simp at hc
    rw [← hc]
    exact hv2 _ (List.getElem_mem hklt)
  have hres := firstMatch_cat_skip hcand hpre hb
  simpa [pat12] using hres

/-- While the lazy faculty group still sits strictly inside the faculty
text, skipping whitespace never reaches an opening bracket, so the rest
of the pattern fails. -/
theorem pat10_fail_inside_fac {fac rest : Str} {k : Nat}
    (hf2 : ∀ c ∈ fac, facChar c = true)
    (hf4 : ∀ c, fac.getLast? = some c → pyIsSpace c = false)
    (hk : k < fac.length) :
    reMatches pat10 (fac.drop k ++ rest) = [] := by
  obtain ⟨cbad, hmem, hbad⟩ := exists_false_in_drop hk hf4
  have hlt : runLen pyIsSpace (fac.drop k) < (fac.drop k).length :=
    runLen_lt_of_mem_false hmem hbad
  have hrun : runLen pyIsSpace (fac.drop k ++ rest) = runLen pyIsSpace (fac.drop k) :=
    runLen_append_of_lt _ hlt
  show reMatches (.cat (.repG pyIsSpace 0) pat11) (fac.drop k ++ rest) = []
  apply cat_nil_all
  intro x hx
  rw [reMatches_repG] at hx
  obtain ⟨j, hj, rfl⟩ := List.mem_map.mp hx
  have hjle : j ≤ runLen pyIsSpace (fac.drop k ++ rest) := mem_countDown_le hj
  have hjlt : j < (fac.drop k).length := by
    rw [hrun] at hjle
    omega
  have hkj : k + j < fac.length := by
    rw [List.length_drop] at hjlt
    omega
  show reMatches (.cat (.cls openChar) pat12) _ = []
  apply cat_nil_left
  apply reMatches_cls_head_nil
  intro c hc
  rw [List.drop_append_eq_append_drop, List.drop_eq_getElem_cons hjlt] at hc
  simp at hc
  rw [← hc]
  exact facChar_not_open (hf2 _ (List.getElem_mem hkj))

/-- After the faculty group, optional whitespace plus the opening bracket
plus the venue match. -/
theorem after_fac_first {ven : Str} {od cd : Char} (hv1 : ven ≠ [])
    (hv2 : ∀ c ∈ ven, closeChar c = false) (hv3 : ∀ c ∈ ven, dotChar c = true)
    (hod : openChar od = true) (hcd : closeChar cd = true) :
    FirstMatch pat10 (' ' :: (od :: (ven ++ [cd]))) ([(5, ven)], []) := by
  have h11 : FirstMatch pat11 (od :: (ven ++ [cd])) ([(5, ven)], []) := by
    have hcls : FirstMatch (.cls openChar) (od :: (ven ++ [cd])) ([], ven ++ [cd]) :=
      ⟨[], by rw [reMatches_cls_pos _ hod]⟩
    have hres := firstMatch_cat hcls (venue_first hv1 hv2 hv3 hcd)
    simpa [pat11] using hres
  have hws : FirstMatch (.repG pyIsSpace 0) ([' '] ++ (od :: (ven ++ [cd])))
      ([], od :: (ven ++ [cd])) := by
    apply firstMatch_repG_full
    · intro c hc
      simp at hc
      rw [hc]
      decide
    · simp [runLen, not_space_of_open hod]
    · simp
  have hres := firstMatch_cat hws h11
  simpa [pat10] using hres

/-- The lazy faculty group captures exactly the faculty text. -/
theorem fac_first {fac ven : Str} {od cd : Char}
    (hf1 : fac ≠ []) (hf2 : ∀ c ∈ fac, facChar c = true)
    (hf4 : ∀ c, fac.getLast? = some c → pyIsSpace c = false)
    (hv1 : ven ≠ []) (hv2 : ∀ c ∈ ven, closeChar c = false) (hv3 : ∀ c ∈ ven, dotChar c = true)
    (hod : openChar od = true) (hcd : closeChar cd = true) :
    FirstMatch pat9 (fac ++ (' ' :: (od :: (ven ++ [cd])))) ([(4, fac), (5, ven)], []) := by
  obtain ⟨f0, ft, rfl⟩ := List.exists_cons_of_ne_nil hf1
  have hrun : runLen facChar ((f0 :: ft) ++ (' ' :: (od :: (ven ++ [cd])))) = ft.length + 2 := by
    rw [runLen_append_all _ hf2]
    have h1 : runLen facChar (' ' :: (od :: (ven ++ [cd]))) = 1 := by
      simp [runLen, facChar_of_space (by decide : pyIsSpace ' ' = true), facChar_open_false hod]
    rw [h1]
    simp
  have hcand : reMatches (.grp 4 (.repL facChar 1)) ((f0 :: ft) ++ (' ' :: (od :: (ven ++ [cd])))) =
      (countUp ft.length 1).map
        (fun k => ([(4, ((f0 :: ft) ++ (' ' :: (od :: (ven ++ [cd])))).take k)],
          ((f0 :: ft) ++ (' ' :: (od :: (ven ++ [cd])))).drop k)) ++
      ([(4, ((f0 :: ft) ++ (' ' :: (od :: (ven ++ [cd])))).take (1 + ft.length))],
        ((f0 :: ft) ++ (' ' :: (od :: (ven ++ [cd])))).drop (1 + ft.length)) ::
      [([(4, ((f0 :: ft) ++ (' ' :: (od :: (ven ++ [cd])))).take (1 + ft.length + 1))],
        ((f0 :: ft) ++ (' ' :: (od :: (ven ++ [cd])))).drop (1 + ft.length + 1))] := by
    rw [reMatches_grp_repL, hrun]
    have e1 : ft.length + 2 + 1 - 1 = ft.length + 2 := by omega
    rw [e1, countUp_add ft.length 2 1, List.map_append]
    rfl
  have e2 : 1 + ft.length = (f0 :: ft).length := by
    simp [Nat.add_comm]
  have hx1 : ((f0 :: ft) ++ (' ' :: (od :: (ven ++ [cd])))).take (1 + ft.length) = f0 :: ft := by
    rw [e2, List.take_left]
  have hx2 : ((f0 :: ft) ++ (' ' :: (od :: (ven ++ [cd])))).drop (1 + ft.length) =
      ' ' :: (od :: (ven ++ [cd])) := by
    rw [e2, List.drop_left]
  rw [hx1, hx2] at hcand
  have hpre : ∀ z ∈ (countUp ft.length 1).map
      (fun k => ([(4, ((f0 :: ft) ++ (' ' :: (od :: (ven ++ [cd])))).take k)],
        ((f0 :: ft) ++ (' ' :: (od :: (ven ++ [cd])))).drop k)),
      reMatches pat10 z.2 = [] := by
    intro z hz
    obtain ⟨k, hk, rfl⟩ := List.mem_map.mp hz
    obtain ⟨hk1, hk2⟩ := mem_countUp hk
    have hklt : k < (f0 :: ft).length := by
      simp
      omega
    have hdrop : ((f0 :: ft) ++ (' ' :: (od :: (ven ++ [cd])))).drop k =
        (f0 :: ft).drop k ++ (' ' :: (od :: (ven ++ [cd]))).drop (k - (f0 :: ft).length) :=
      List.drop_append_eq_append_drop
    show reMatches pat10 _ = []
    rw [hdrop]
    exact pat10_fail_inside_fac hf2 hf4 hklt
  have hres := firstMatch_cat_skip hcand hpre (after_fac_first hv1 hv2 hv3 hod hcd)
  simpa [pat9] using hres

/-! ### Step lemmas for assembling the full pattern -/

theorem lit_step {a : Char} {b : Re} {s : Str} {g : Groups}
    (h : FirstMatch b s (g, [])) : FirstMatch (.cat (.lit a) b) (a :: s) (g, []) := by
  have hres := firstMatch_cat ⟨[], reMatches_lit_self a s⟩ h
  simpa using hres

theorem ws_step {b : Re} {rest : Str} {g : Groups}
    (h0 : runLen pyIsSpace rest = 0)
    (h : FirstMatch b rest (g, [])) :
    FirstMatch (.cat (.repG pyIsSpace 0) b) (' ' :: rest) (g, []) := by
  have hws : FirstMatch (.repG pyIsSpace 0) ([' '] ++ rest) ([], rest) := by
    apply firstMatch_repG_full
    · intro c hc
      simp at hc
      rw [hc]
      decide
    · exact h0
    · simp
  have hres := firstMatch_cat hws h
  simpa using hres

theorem grp_repG_step {i : Nat} {p : Char → Bool} {a rest : Str} {b : Re} {g : Groups}
    (ha : a ≠ []) (hall : ∀ c ∈ a, p c = true) (h0 : runLen p rest = 0)
    (h : FirstMatch b rest (g, [])) :
    FirstMatch (.cat (.grp i (.repG p 1)) b) (a ++ rest) ((i, a) :: g, []) := by
  have hrep : FirstMatch (.repG p 1) (a ++ rest) ([], rest) :=
    firstMatch_repG_full rest hall h0 (List.length_pos.mpr ha)
  have hgrp := firstMatch_grp (i := i) hrep
  have e : (a ++ rest).length - rest.length = a.length := by simp
  rw [e, List.take_left] at hgrp
  have hres := firstMatch_cat hgrp h
  simpa using hres

theorem cls_grp_step {i : Nat} {p : Char → Bool} {c : Char} {rest : Str} {b : Re} {g : Groups}
    (hc : p c = true) (h : FirstMatch b rest (g, [])) :
    FirstMatch (.cat (.grp i (.cls p)) b) (c :: rest) ((i, [c]) :: g, []) := by
  have hcls : FirstMatch (.cls p) (c :: rest) ([], rest) := ⟨[], by rw [reMatches_cls_pos _ hc]⟩
  have hgrp := firstMatch_grp (i := i) hcls
  have e : (c :: rest).length - rest.length = 1 := by simp
  rw [e] at hgrp
  have hres := firstMatch_cat hgrp h
  simpa using hres

/-- The backtracking match of `class_pattern` on a well-formed token:
each group captures exactly its component. -/
theorem classPattern_first
    {course : Str} {sec : Char} {sess fac ven : Str} {od cd : Char}
    (hc1 : course ≠ []) (hc2 : ∀ c ∈ course, courseChar c = true)
    (hsec : upperChar sec = true)
    (hs1 : sess ≠ []) (hs2 : ∀ c ∈ sess, digitChar c = true)
    (hf1 : fac ≠ []) (hf2 : ∀ c ∈ fac, facChar c = true)
    (hf3 : ∀ c, fac.head? = some c → pyIsSpace c = false)
    (hf4 : ∀ c, fac.getLast? = some c → pyIsSpace c = false)
    (hv1 : ven ≠ []) (hv2 : ∀ c ∈ ven, closeChar c = false) (hv3 : ∀ c ∈ ven, dotChar c = true)
    (hod : openChar od = true) (hcd : closeChar cd = true) :
    reMatch class_pattern
      (course ++ ('-' :: (sec :: ('(' :: (sess ++ (')' :: ('-' :: (' ' :: (fac ++ (' ' :: (od :: (ven ++ [cd])))))))))))) =
      some ([(1, course), (2, [sec]), (3, sess), (4, fac), (5, ven)], []) := by
  have h9 : FirstMatch pat9 (fac ++ (' ' :: (od :: (ven ++ [cd])))) ([(4, fac), (5, ven)], []) :=
    fac_first hf1 hf2 hf4 hv1 hv2 hv3 hod hcd
  have hfhead : runLen pyIsSpace (fac ++ (' ' :: (od :: (ven ++ [cd])))) = 0 := by
    obtain ⟨f0, ft, hf⟩ := List.exists_cons_of_ne_nil hf1
    have hns : pyIsSpace f0 = false := hf3 f0 (by rw [hf]; rfl)
    rw [hf, List.cons_append]
    simp [runLen, hns]
  have h8 : FirstMatch pat8 (' ' :: (fac ++ (' ' :: (od :: (ven ++ [cd])))))
      ([(4, fac), (5, ven)], []) := ws_step hfhead h9
  have h7 : FirstMatch pat7 ('-' :: (' ' :: (fac ++ (' ' :: (od :: (ven ++ [cd]))))))
      ([(4, fac), (5, ven)], []) := lit_step h8
  have h6 : FirstMatch pat6 (')' :: ('-' :: (' ' :: (fac ++ (' ' :: (od :: (ven ++ [cd])))))))
      ([(4, fac), (5, ven)], []) := lit_step h7
  have hd0 : runLen digitChar (')' :: ('-' :: (' ' :: (fac ++ (' ' :: (od :: (ven ++ [cd]))))))) = 0 := by
    have : digitChar ')' = false := by decide
    simp [runLen, this]
  have h5 : FirstMatch pat5
      (sess ++ (')' :: ('-' :: (' ' :: (fac ++ (' ' :: (od :: (ven ++ [cd]))))))))
      ([(3, sess), (4, fac), (5, ven)], []) := grp_repG_step hs1 hs2 hd0 h6
  have h4 : FirstMatch pat4
      ('(' :: (sess ++ (')' :: ('-' :: (' ' :: (fac ++ (' ' :: (od :: (ven ++ [cd])))))))))
      ([(3, sess), (4, fac), (5, ven)], []) := lit_step h5
  have h3 : FirstMatch pat3
      (sec :: ('(' :: (sess ++ (')' :: ('-' :: (' ' :: (fac ++ (' ' :: (od :: (ven ++ [cd]))))))))))
      ([(2, [sec]), (3, sess), (4, fac), (5, ven)], []) := cls_grp_step hsec h4
  have h2 : FirstMatch pat2
      ('-' :: (sec :: ('(' :: (sess ++ (')' :: ('-' :: (' ' :: (fac ++ (' ' :: (od :: (ven ++ [cd])))))))))))
      ([(2, [sec]), (3, sess), (4, fac), (5, ven)], []) := lit_step h3
  obtain ⟨c0, ct, rfl⟩ := List.exists_cons_of_ne_nil hc1
  have hrun : runLen courseChar
      ((c0 :: ct) ++ ('-' :: (sec :: ('(' :: (sess ++ (')' :: ('-' :: (' ' :: (fac ++ (' ' :: (od :: (ven ++ [cd])))))))))))) =
      ct.length + 3 := by
    rw [runLen_append_all _ hc2]
    have hcc : courseChar '-' = true := by decide
    have hcs : courseChar sec = true := courseChar_of_upper hsec
    have hcp : courseChar '(' = false := by decide
    simp [runLen, hcc, hcs, hcp]
  have hcand : reMatches (.grp 1 (.repG courseChar 1))
      ((c0 :: ct) ++ ('-' :: (sec :: ('(' :: (sess ++ (')' :: ('-' :: (' ' :: (fac ++ (' ' :: (od :: (ven ++ [cd])))))))))))) =
      [([(1, ((c0 :: ct) ++ ('-' :: (sec :: ('(' :: (sess ++ (')' :: ('-' :: (' ' :: (fac ++ (' ' :: (od :: (ven ++ [cd])))))))))))).take (ct.length + 3))],
        ((c0 :: ct) ++ ('-' :: (sec :: ('(' :: (sess ++ (')' :: ('-' :: (' ' :: (fac ++ (' ' :: (od :: (ven ++ [cd])))))))))))).drop (ct.length + 3)),
       ([(1, ((c0 :: ct) ++ ('-' :: (sec :: ('(' :: (sess ++ (')' :: ('-' :: (' ' :: (fac ++ (' ' :: (od :: (ven ++ [cd])))))))))))).take (ct.length + 2))],
        ((c0 :: ct) ++ ('-' :: (sec :: ('(' :: (sess ++ (')' :: ('-' :: (' ' :: (fac ++ (' ' :: (od :: (ven ++ [cd])))))))))))).drop (ct.length + 2))] ++
      ([(1, c0 :: ct)], '-' :: (sec :: ('(' :: (sess ++ (')' :: ('-' :: (' ' :: (fac ++ (' ' :: (od :: (ven ++ [cd]))))))))))) ::
      (countDown ct.length ct.length).map
        (fun k => ([(1, ((c0 :: ct) ++ ('-' :: (sec :: ('(' :: (sess ++ (')' :: ('-' :: (' ' :: (fac ++ (' ' :: (od :: (ven ++ [cd])))))))))))).take k)],
          ((c0 :: ct) ++ ('-' :: (sec :: ('(' :: (sess ++ (')' :: ('-' :: (' ' :: (fac ++ (' ' :: (od :: (ven ++ [cd])))))))))))).drop k)) := by
    rw [reMatches_grp_repG, hrun]
    have e1 : ct.length + 3 + 1 - 1 = ct.length + 3 := by omega
    rw [e1]
    have p1 : countDown (ct.length + 3) (ct.length + 3) =
        (ct.length + 3) :: ((ct.length + 2) :: ((ct.length + 1) :: countDown ct.length ct.length)) := by
      have a1 : countDown (ct.length + 3) (ct.length + 3) =
          (ct.length + 3) :: countDown (ct.length + 2) (ct.length + 2) := by
        rw [countDown_succ, show ct.length + 3 - 1 = ct.length + 2 by omega]
      have a2 : countDown (ct.length + 2) (ct.length + 2) =
          (ct.length + 2) :: countDown (ct.length + 1) (ct.length + 1) := by
        rw [countDown_succ, show ct.length + 2 - 1 = ct.length + 1 by omega]
      have a3 : countDown (ct.length + 1) (ct.length + 1) =
          (ct.length + 1) :: countDown ct.length ct.length := by
        rw [countDown_succ, show ct.length + 1 - 1 = ct.length by omega]
      rw [a1, a2, a3]
    rw [p1, List.map_cons, List.map_cons, List.map_cons]
    have ex : ct.length + 1 = (c0 :: ct).length := by simp
    rw [show ((c0 :: ct) ++ ('-' :: (sec :: ('(' :: (sess ++ (')' :: ('-' :: (' ' :: (fac ++ (' ' :: (od :: (ven ++ [cd])))))))))))).take (ct.length + 1) = c0 :: ct by rw [ex, List.take_left]]
    rw [show ((c0 :: ct) ++ ('-' :: (sec :: ('(' :: (sess ++ (')' :: ('-' :: (' ' :: (fac ++ (' ' :: (od :: (ven ++ [cd])))))))))))).drop (ct.length + 1) = '-' :: (sec :: ('(' :: (sess ++ (')' :: ('-' :: (' ' :: (fac ++ (' ' :: (od :: (ven ++ [cd])))))))))) by rw [ex, List.drop_left]]
    rfl
  have hpre : ∀ z ∈
      [([(1, ((c0 :: ct) ++ ('-' :: (sec :: ('(' :: (sess ++ (')' :: ('-' :: (' ' :: (fac ++ (' ' :: (od :: (ven ++ [cd])))))))))))).take (ct.length + 3))],
        ((c0 :: ct) ++ ('-' :: (sec :: ('(' :: (sess ++ (')' :: ('-' :: (' ' :: (fac ++ (' ' :: (od :: (ven ++ [cd])))))))))))).drop (ct.length + 3)),
       ([(1, ((c0 :: ct) ++ ('-' :: (sec :: ('(' :: (sess ++ (')' :: ('-' :: (' ' :: (fac ++ (' ' :: (od :: (ven ++ [cd])))))))))))).take (ct.length + 2))],
        ((c0 :: ct) ++ ('-' :: (sec :: ('(' :: (sess ++ (')' :: ('-' :: (' ' :: (fac ++ (' ' :: (od :: (ven ++ [cd])))))))))))).drop (ct.length + 2))],
      reMatches pat2 z.2 = [] := by
    have hdropA : ((c0 :: ct) ++ ('-' :: (sec :: ('(' :: (sess ++ (')' :: ('-' :: (' ' :: (fac ++ (' ' :: (od :: (ven ++ [cd])))))))))))).drop (ct.length + 3) =
        '(' :: (sess ++ (')' :: ('-' :: (' ' :: (fac ++ (' ' :: (od :: (ven ++ [cd])))))))) := by
      rw [List.drop_append_eq_append_drop]
      rw [List.drop_eq_nil_of_le (by simp), List.nil_append]
      rw [show ct.length + 3 - (c0 :: ct).length = 2 by simp]
      rfl
    have hdropB : ((c0 :: ct) ++ ('-' :: (sec :: ('(' :: (sess ++ (')' :: ('-' :: (' ' :: (fac ++ (' ' :: (od :: (ven ++ [cd])))))))))))).drop (ct.length + 2) =
        sec :: ('(' :: (sess ++ (')' :: ('-' :: (' ' :: (fac ++ (' ' :: (od :: (ven ++ [cd]))))))))) := by
      rw [List.drop_append_eq_append_drop]
      rw [List.drop_eq_nil_of_le (by simp), List.nil_append]
      rw [show ct.length + 2 - (c0 :: ct).length = 1 by simp]
      rfl
    intro z hz
    rcases List.mem_cons.mp hz with rfl | hz2
    · show reMatches (.cat (.lit '-') pat3) _ = []
      rw [hdropA]
      exact cat_nil_left (reMatches_lit_nil _ (by decide))
    · rcases List.mem_cons.mp hz2 with rfl | hz3
      · show reMatches (.cat (.lit '-') pat3) _ = []
        rw [hdropB]
        exact cat_nil_left (reMatches_lit_nil _ (upper_ne_dash hsec))
      · cases hz3
  have hfin := firstMatch_cat_skip hcand hpre h2
  obtain ⟨t, ht⟩ := hfin
  have ht2 : reMatches class_pattern
      ((c0 :: ct) ++ ('-' :: (sec :: ('(' :: (sess ++ (')' :: ('-' :: (' ' :: (fac ++ (' ' :: (od :: (ven ++ [cd])))))))))))) =
      ([(1, c0 :: ct)] ++ [(2, [sec]), (3, sess), (4, fac), (5, ven)], []) :: t := ht
  show (reMatches class_pattern _).head? = _
  rw [ht2]
  rfl

/-! ### String helper lemmas -/

theorem pyLStrip_eq_self {s : Str} (h : ∀ c, s.head? = some c → pyIsSpace c = false) :
    pyLStrip s = s := by
  cases s with
  | nil => rfl
  | cons c cs => simp [pyLStrip, h c rfl]

theorem pyStrip_eq_self {s : Str}
    (h1 : ∀ c, s.head? = some c → pyIsSpace c = false)
    (h2 : ∀ c, s.getLast? = some c → pyIsSpace c = false) :
    pyStrip s = s := by
  have hr : pyRStrip s = s := by
    unfold pyRStrip
    rw [pyLStrip_eq_self, List.reverse_reverse]
    intro c hc
    rw [List.head?_reverse] at hc
    exact h2 c hc
  unfold pyStrip
  rw [hr]
  exact pyLStrip_eq_self h1

theorem replaceNl_cons_of_ne {c : Char} (s : Str) (h : ¬ c = '\n') :
    pyReplaceNlSpace (c :: s) = c :: pyReplaceNlSpace s := by
  simp [pyReplaceNlSpace, h]

theorem replaceNl_append (a b : Str) :
    pyReplaceNlSpace (a ++ b) = pyReplaceNlSpace a ++ pyReplaceNlSpace b := by
  simp [pyReplaceNlSpace]

theorem replaceNl_id {a : Str} (h : ∀ c ∈ a, ¬ c = '\n') : pyReplaceNlSpace a = a := by
  induction a with
  | nil => rfl
  | cons c cs ih =>
    rw [replaceNl_cons_of_ne _ (h c (List.mem_cons_self c cs)),
      ih (fun d hd => h d (List.mem_cons_of_mem c hd))]

theorem getGroup_head (i : Nat) (s : Str) (gs : Groups) : getGroup ((i, s) :: gs) i = s := by
  simp [getGroup, List.find?_cons_of_pos]

theorem getGroup_tail {j i : Nat} (s : Str) (gs : Groups) (h : ¬ j = i) :
    getGroup ((j, s) :: gs) i = getGroup gs i := by
  simp only [getGroup]
  rw [List.find?_cons_of_neg]
  simp [h]

/-! ### Facts about the claim-level character classes -/

theorem not_space_of_upper {c : Char} (h : upperChar c = true) : pyIsSpace c = false := by
  cases hs : pyIsSpace c
  · rfl
  · exfalso
    simp only [pyIsSpace, Bool.or_eq_true, decide_eq_true_eq] at hs
    rcases hs with ((((rfl | rfl) | rfl) | rfl) | rfl) | rfl <;> exact absurd h (by decide)

theorem not_nl_of_upper {c : Char} (h : upperChar c = true) : ¬ c = '\n' := by
  intro e
  subst e
  exact absurd h (by decide)

theorem not_nl_of_digit {c : Char} (h : digitChar c = true) : ¬ c = '\n' := by
  intro e
  subst e
  exact absurd h (by decide)

theorem not_space_of_digit {c : Char} (h : digitChar c = true) : pyIsSpace c = false := by
  cases hs : pyIsSpace c
  · rfl
  · exfalso
    simp only [pyIsSpace, Bool.or_eq_true, decide_eq_true_eq] at hs
    rcases hs with ((((rfl | rfl) | rfl) | rfl) | rfl) | rfl <;> exact absurd h (by decide)

theorem courseChar_of_claim {c : Char} (h : (c.isAlpha || (c.isDigit || c = '-')) = true) :
    courseChar c = true := by
  simp only [Bool.or_eq_true, decide_eq_true_eq] at h
  rcases h with h | h | h
  · simp [courseChar, wordChar, h]
  · simp [courseChar, wordChar, h]
  · subst h
    decide

theorem not_nl_of_claim {c : Char} (h : (c.isAlpha || (c.isDigit || c = '-')) = true) :
    ¬ c = '\n' := by
  intro e
  subst e
  exact absurd h (by decide)

theorem not_space_of_claim {c : Char} (h : (c.isAlpha || (c.isDigit || c = '-')) = true) :
    pyIsSpace c = false := by
  cases hs : pyIsSpace c
  · rfl
  · exfalso
    simp only [pyIsSpace, Bool.or_eq_true, decide_eq_true_eq] at hs
    rcases hs with ((((rfl | rfl) | rfl) | rfl) | rfl) | rfl <;> exact absurd h (by decide)

theorem facChar_of_claim {c : Char} (h : (upperChar c || (c = ' ' || c = '/')) = true) :
    facChar c = true := by
  simp only [Bool.or_eq_true, decide_eq_true_eq] at h
  rcases h with h | rfl | rfl
  · simp [facChar, h]
  · decide
  · decide

theorem not_nl_of_facclaim {c : Char} (h : (upperChar c || (c = ' ' || c = '/')) = true) :
    ¬ c = '\n' := by
  intro e
  subst e
  exact absurd h (by decide)

theorem not_space_of_fac_edge {c : Char} (h : (upperChar c || (c = ' ' || c = '/')) = true)
    (hne : ¬ c = ' ') : pyIsSpace c = false := by
  simp only [Bool.or_eq_true, decide_eq_true_eq] at h
  rcases h with h | rfl | rfl
  · exact not_space_of_upper h
  · exact absurd rfl hne
  · decide

theorem mem_of_getLast?_eq {l : Str} {c : Char} (h : l.getLast? = some c) : c ∈ l := by
  obtain ⟨hne, he⟩ := List.mem_getLast?_eq_getLast (show c ∈ l.getLast? by rw [Option.mem_def, h])
  rw [he]
  exact List.getLast_mem hne

theorem mem_of_head?_eq {l : Str} {c : Char} (h : l.head? = some c) : c ∈ l := by
  cases l with
  | nil => cases h
  | cons d ds =>
    rw [List.head?_cons, Option.some_inj] at h
    rw [← h]
    exact List.mem_cons_self d ds

/-- Behaviour of `processEntry` once the match and the time lookup are known. -/
theorem processEntry_eq_of_match {cdy t : Str} {ts : List (Option Str)} {i : Nat} {e : Str}
    {gs : Groups} {rest : Str}
    (hm : reMatch class_pattern (pyReplaceNlSpace e) = some (gs, rest))
    (ht : timeSlotAt ts i = .ok t) :
    processEntry (some cdy) ts i e =
      .ok [⟨cdy, t, pyStrip (getGroup gs 1), pyStrip (getGroup gs 2),
        pyStrip (getGroup gs 4), pyStrip (getGroup gs 5), none⟩] := by
  unfold processEntry
  rw [hm, ht]

/-- C2 (amended): a well-formed token `COURSE-SECTION(SESSION)- FACULTY {VENUE}`
(or parenthesized venue) yields exactly one record; course, section, and
faculty fields equal the corresponding substrings, and the venue field is
the delimiter-bounded content after newline-to-space replacement and
whitespace stripping.  The session substring is matched but not stored. -/
theorem C2_token_parse
    (course : Str) (sec : Char) (sess fac ven : Str) (od cd : Char)
    (day t : Str) (ts : List (Option Str)) (i : Nat)
    (hcourse : course ≠ [] ∧ ∀ c ∈ course, (c.isAlpha || (c.isDigit || c = '-')) = true)
    (hsec : upperChar sec = true)
    (hsess : sess ≠ [] ∧ ∀ c ∈ sess, digitChar c = true)
    (hfac : fac ≠ [] ∧ ∀ c ∈ fac, (upperChar c || (c = ' ' || c = '/')) = true)
    (hfhead : ∀ c, fac.head? = some c → ¬ c = ' ')
    (hflast : ∀ c, fac.getLast? = some c → ¬ c = ' ')
    (hven : ven ≠ [] ∧ ∀ c ∈ ven, ¬ c = '(' ∧ ¬ c = ')' ∧ ¬ c = '\x7b' ∧ ¬ c = '\x7d')
    (hdelim : (od = '(' ∧ cd = ')') ∨ (od = '\x7b' ∧ cd = '\x7d'))
    (hts : timeSlotAt ts i = .ok t) :
    processEntry (some day) ts i
      (course ++ ('-' :: (sec :: ('(' :: (sess ++ (')' :: ('-' :: (' ' :: (fac ++ (' ' :: (od :: (ven ++ [cd])))))))))))) =
      .ok [⟨day, t, course, [sec], fac, pyStrip (pyReplaceNlSpace ven), none⟩] := by
  obtain ⟨hc1, hc2⟩ := hcourse
  obtain ⟨hs1, hs2⟩ := hsess
  obtain ⟨hf1, hfc2⟩ := hfac
  obtain ⟨hv1, hv2raw⟩ := hven
  have hc2' : ∀ c ∈ course, courseChar c = true := fun c hc => courseChar_of_claim (hc2 c hc)
  have hcnl : ∀ c ∈ course, ¬ c = '\n' := fun c hc => not_nl_of_claim (hc2 c hc)
  have hf2' : ∀ c ∈ fac, facChar c = true := fun c hc => facChar_of_claim (hfc2 c hc)
  have hfnl : ∀ c ∈ fac, ¬ c = '\n' := fun c hc => not_nl_of_facclaim (hfc2 c hc)
  have hf3' : ∀ c, fac.head? = some c → pyIsSpace c = false := fun c hc =>
    not_space_of_fac_edge (hfc2 c (mem_of_head?_eq hc)) (hfhead c hc)
  have hf4' : ∀ c, fac.getLast? = some c → pyIsSpace c = false := fun c hc =>
    not_space_of_fac_edge (hfc2 c (mem_of_getLast?_eq hc)) (hflast c hc)
  have hsnl : ∀ c ∈ sess, ¬ c = '\n' := fun c hc => not_nl_of_digit (hs2 c hc)
  have hsecnl : ¬ sec = '\n' := not_nl_of_upper hsec
  have hod : openChar od = true := by
    rcases hdelim with ⟨rfl, _⟩ | ⟨rfl, _⟩ <;> decide
  have hcd : closeChar cd = true := by
    rcases hdelim with ⟨_, rfl⟩ | ⟨_, rfl⟩ <;> decide
  have hodnl : ¬ od = '\n' := by
    rcases hdelim with ⟨rfl, _⟩ | ⟨rfl, _⟩ <;> decide
  have hcdnl : ¬ cd = '\n' := by
    rcases hdelim with ⟨_, rfl⟩ | ⟨_, rfl⟩ <;> decide
  have hv1' : pyReplaceNlSpace ven ≠ [] := by
    intro e
    apply hv1
    have hlen := congrArg List.length e
    simp [pyReplaceNlSpace] at hlen
    exact hlen
  have hv2' : ∀ c ∈ pyReplaceNlSpace ven, closeChar c = false := by
    intro c hc
    obtain ⟨d, hd, rfl⟩ := List.mem_map.mp hc
    obtain ⟨_, hd2, _, hd4⟩ := hv2raw d hd
    by_cases hnl : d = '\n'
    · subst hnl
      decide
    · rw [if_neg hnl]
      simp [closeChar, hd2, hd4]
  have hv3' : ∀ c ∈ pyReplaceNlSpace ven, dotChar c = true := by
    intro c hc
    obtain ⟨d, hd, rfl⟩ := List.mem_map.mp hc
    by_cases hnl : d = '\n'
    · subst hnl
      decide
    · rw [if_neg hnl]
      simp [dotChar, hnl]
  have hmap : pyReplaceNlSpace
      (course ++ ('-' :: (sec :: ('(' :: (sess ++ (')' :: ('-' :: (' ' :: (fac ++ (' ' :: (od :: (ven ++ [cd])))))))))))) =
      course ++ ('-' :: (sec :: ('(' :: (sess ++ (')' :: ('-' :: (' ' :: (fac ++ (' ' :: (od :: ((pyReplaceNlSpace ven) ++ [cd]))))))))))) := by
    rw [replaceNl_append, replaceNl_id hcnl,
      replaceNl_cons_of_ne _ (by decide),
      replaceNl_cons_of_ne _ hsecnl,
      replaceNl_cons_of_ne _ (by decide),
      replaceNl_append, replaceNl_id hsnl,
      replaceNl_cons_of_ne _ (by decide),
      replaceNl_cons_of_ne _ (by decide),
      replaceNl_cons_of_ne _ (by decide),
      replaceNl_append, replaceNl_id hfnl,
      replaceNl_cons_of_ne _ (by decide),
      replaceNl_cons_of_ne _ hodnl,
      replaceNl_append,
      replaceNl_cons_of_ne _ hcdnl]
    rfl
  have hm : reMatch class_pattern (pyReplaceNlSpace
      (course ++ ('-' :: (sec :: ('(' :: (sess ++ (')' :: ('-' :: (' ' :: (fac ++ (' ' :: (od :: (ven ++ [cd]))))))))))))) =
      some ([(1, course), (2, [sec]), (3, sess), (4, fac), (5, pyReplaceNlSpace ven)], []) := by
    rw [hmap]
    exact classPattern_first hc1 hc2' hsec hs1 hs2 hf1 hf2' hf3' hf4' hv1' hv2' hv3' hod hcd
  rw [processEntry_eq_of_match hm hts]
  have g1 : getGroup [(1, course), (2, [sec]), (3, sess), (4, fac), (5, pyReplaceNlSpace ven)] 1 = course :=
    getGroup_head 1 course _
  have g2 : getGroup [(1, course), (2, [sec]), (3, sess), (4, fac), (5, pyReplaceNlSpace ven)] 2 = [sec] := by
    rw [getGroup_tail _ _ (by decide), getGroup_head]
  have g4 : getGroup [(1, course), (2, [sec]), (3, sess), (4, fac), (5, pyReplaceNlSpace ven)] 4 = fac := by
    rw [getGroup_tail _ _ (by decide), getGroup_tail _ _ (by decide),
      getGroup_tail _ _ (by decide), getGroup_head]
  have g5 : getGroup [(1, course), (2, [sec]), (3, sess), (4, fac), (5, pyReplaceNlSpace ven)] 5 = pyReplaceNlSpace ven := by
    rw [getGroup_tail _ _ (by decide), getGroup_tail _ _ (by decide),
      getGroup_tail _ _ (by decide), getGroup_tail _ _ (by decide), getGroup_head]
  rw [g1, g2, g4, g5]
  have hstripc : pyStrip course = course := by
    apply pyStrip_eq_self
    · intro c hc
      exact not_space_of_claim (hc2 c (mem_of_head?_eq hc))
    · intro c hc
      exact not_space_of_claim (hc2 c (mem_of_getLast?_eq hc))
  have hstrips : pyStrip [sec] = [sec] := by
    apply pyStrip_eq_self
    · intro c hc
      rw [List.head?_cons, Option.some_inj] at hc
      rw [← hc]
      exact not_space_of_upper hsec
    · intro c hc
      simp at hc
      rw [← hc]
      exact not_space_of_upper hsec
  have hstripf : pyStrip fac = fac := pyStrip_eq_self hf3' hf4'
  rw [hstripc, hstrips, hstripf]

/-! ### Membership lemmas for the parser chain -/

theorem exSeq_ok {x y : Except Unit (List ClassRec)} {out : List ClassRec}
    (h : exSeq x y = .ok out) :
    ∃ xs ys, x = .ok xs ∧ y = .ok ys ∧ out = xs ++ ys := by
  cases x with
  | error e => exact Except.noConfusion h
  | ok xs =>
    cases y with
    | error e =>
      simp only [exSeq] at h
      exact Except.noConfusion h
    | ok ys =>
      simp only [exSeq] at h
      cases h
      exact ⟨xs, ys, rfl, rfl, rfl⟩

theorem processEntry_mem {cdy : Option Str} {ts : List (Option Str)} {i : Nat} {e : Str}
    {out : List ClassRec} {r : ClassRec}
    (h : processEntry cdy ts i e = .ok out) (hr : r ∈ out) :
    cdy = some r.Day ∧ r.Course_Name = none := by
  unfold processEntry at h
  split at h
  · cases h
    exact absurd hr (List.not_mem_nil r)
  · split at h
    · exact Except.noConfusion h
    · split at h
      · exact Except.noConfusion h
      · cases h
        rw [List.mem_singleton.mp hr]
        exact ⟨rfl, rfl⟩

theorem exConcat_mem {l : List (Except Unit (List ClassRec))} {out : List ClassRec} {r : ClassRec}
    (h : exConcat l = .ok out) (hr : r ∈ out) :
    ∃ x ∈ l, ∃ xs, x = .ok xs ∧ r ∈ xs := by
  induction l generalizing out with
  | nil =>
    unfold exConcat at h
    cases h
    exact absurd hr (List.not_mem_nil r)
  | cons a as ih =>
    unfold exConcat at h
    obtain ⟨xs, ys, ha, has, rfl⟩ := exSeq_ok h
    rcases List.mem_append.mp hr with h1 | h2
    · exact ⟨a, List.mem_cons_self _ _, xs, ha, h1⟩
    · obtain ⟨x, hx, xs2, hxs2, hr2⟩ := ih has h2
      exact ⟨x, List.mem_cons_of_mem _ hx, xs2, hxs2, hr2⟩

theorem processCell_mem {cdy : Option Str} {ts : List (Option Str)} {i : Nat}
    {cell : Option Str} {out : List ClassRec} {r : ClassRec}
    (h : processCell cdy ts i cell = .ok out) (hr : r ∈ out) :
    cdy = some r.Day ∧ r.Course_Name = none := by
  unfold processCell at h
  split at h
  · cases h
    exact absurd hr (List.not_mem_nil r)
  · split at h
    · obtain ⟨x, hx, xs, hxs, hr2⟩ := exConcat_mem h hr
      obtain ⟨e, _, rfl⟩ := List.mem_map.mp hx
      exact processEntry_mem hxs hr2
    · cases h
      exact absurd hr (List.not_mem_nil r)

theorem processCells_mem {cdy : Option Str} {ts : List (Option Str)} {i : Nat}
    {cells : List (Option Str)} {out : List ClassRec} {r : ClassRec}
    (h : processCells cdy ts i cells = .ok out) (hr : r ∈ out) :
    cdy = some r.Day ∧ r.Course_Name = none := by
  induction cells generalizing i out with
  | nil =>
    unfold processCells at h
    cases h
    exact absurd hr (List.not_mem_nil r)
  | cons c cs ih =>
    unfold processCells at h
    obtain ⟨xs, ys, ha, has, rfl⟩ := exSeq_ok h
    rcases List.mem_append.mp hr with h1 | h2
    · exact processCell_mem ha h1
    · exact ih has h2

theorem processRows_name {ts : List (Option Str)} {rows : List (List (Option Str))}
    {day : Option Str} {out : List ClassRec} {r : ClassRec}
    (h : (processRows ts day rows).2 = .ok out) (hr : r ∈ out) : r.Course_Name = none := by
  induction rows generalizing day out with
  | nil =>
    unfold processRows at h
    cases h
    exact absurd hr (List.not_mem_nil r)
  | cons row rs ih =>
    unfold processRows at h
    obtain ⟨xs, ys, ha, has, rfl⟩ := exSeq_ok h
    rcases List.mem_append.mp hr with h1 | h2
    · cases row with
      | nil => exact Except.noConfusion ha
      | cons c0 cells =>
        exact (processCells_mem
          (show processCells (newDayAfterRow day (c0 :: cells)) ts 1 cells = .ok xs from ha) h1).2
    · exact ih has h2

theorem processPages_name {pages : List (Option (List (List (Option Str))))}
    {day : Option Str} {out : List ClassRec} {r : ClassRec}
    (h : (processPages day pages).2 = .ok out) (hr : r ∈ out) : r.Course_Name = none := by
  induction pages generalizing day out with
  | nil =>
    unfold processPages at h
    cases h
    exact absurd hr (List.not_mem_nil r)
  | cons p ps ih =>
    unfold processPages at h
    obtain ⟨xs, ys, ha, has, rfl⟩ := exSeq_ok h
    rcases List.mem_append.mp hr with h1 | h2
    · cases p with
      | none =>
        cases ha
        exact absurd h1 (List.not_mem_nil r)
      | some t =>
        cases t with
        | nil =>
          cases ha
          exact absurd h1 (List.not_mem_nil r)
        | cons hd rows => exact processRows_name ha h1
    · exact ih has h2

/-- C5: within a table, the day label is updated exactly by rows whose
first column is non-empty after stripping, and every record produced by
a row carries the day label current for that row. -/
theorem C5_day_update (day : Option Str) (ts : List (Option Str)) (c0 : Option Str)
    (cells : List (Option Str)) :
    ((processRow day ts (c0 :: cells)).1 =
      match c0 with
      | some d => if pyStrip d ≠ [] then some (pyReplaceNlSpace d) else day
      | none => day) ∧
    ∀ out r, (processRow day ts (c0 :: cells)).2 = .ok out → r ∈ out →
      some r.Day = (processRow day ts (c0 :: cells)).1 := by
  constructor
  · cases c0 <;> simp [processRow, newDayAfterRow]
  · intro out r h hr
    have h2 : processCells (newDayAfterRow day (c0 :: cells)) ts 1 cells = .ok out := h
    exact ((processCells_mem h2 hr).1).symm

/-- Witness for C5: a row with day label "Mon" and one matching cell
produces a record carrying day "Mon". -/
theorem C5_day_update_witness :
    some ("Mon".data) =
      (processRow none [] (some "Mon".data :: [some "MFS-A(6)- AB \x7bC - 402\x7d".data])).1 :=
  (C5_day_update none [] (some "Mon".data) [some "MFS-A(6)- AB \x7bC - 402\x7d".data]).2
    [⟨"Mon".data, "N/A".data, "MFS".data, "A".data, "AB".data, "C - 402".data, none⟩]
    ⟨"Mon".data, "N/A".data, "MFS".data, "A".data, "AB".data, "C - 402".data, none⟩
    (by decide) (by decide)

/-- C6 (amended): every record produced by the parser holds exactly the
day, time, course abbreviation, section, faculty, and venue fields; the
Course_Name key is absent and the session capture is not stored. -/
theorem C6_no_session_field (pages : List (Option (List (List (Option Str)))))
    (out : List ClassRec) (r : ClassRec)
    (h : parse_timetable_pdf pages = .ok out) (hr : r ∈ out) : r.Course_Name = none :=
  processPages_name h hr

/-- Witness for C6 (amended) on a one-page table. -/
theorem C6_no_session_field_witness :
    (⟨"Mon".data, "N/A".data, "AB".data, "C".data, "DE".data, "ROOM".data, none⟩ : ClassRec).Course_Name = none :=
  C6_no_session_field [some [[some "H".data], [some "Mon".data, some "AB-C(7)- DE \x7bROOM\x7d".data]]]
    [⟨"Mon".data, "N/A".data, "AB".data, "C".data, "DE".data, "ROOM".data, none⟩]
    ⟨"Mon".data, "N/A".data, "AB".data, "C".data, "DE".data, "ROOM".data, none⟩
    (by decide) (by decide)

/-- C6 counterexample: for the token `AB-C(7)- DE {ROOM}` the parsed
session "7" is stored in no field of the unique produced record, and no
field holds an integer. -/
theorem C6_counterexample :
    processEntry (some "Mon".data) [] 1 "AB-C(7)- DE \x7bROOM\x7d".data =
      .ok [⟨"Mon".data, "N/A".data, "AB".data, "C".data, "DE".data, "ROOM".data, none⟩] ∧
    ¬ "Mon".data = "7".data ∧ ¬ "N/A".data = "7".data ∧ ¬ "AB".data = "7".data ∧
    ¬ "C".data = "7".data ∧ ¬ "DE".data = "7".data ∧ ¬ "ROOM".data = "7".data := by
  exact ⟨by decide, by decide, by decide, by decide, by decide, by decide, by decide⟩

/-! ### Selection filter claims -/

/-- C1: a record is kept by the selection filter iff the string
`"{course_abbreviation} - {section}"` built from some input record is an
exact member of the selection list (and the kept record is that record
with the Course_Name key added); there is no substring or looser match. -/
theorem C1_filter_exact (m : List (Str × Str)) (sels : List Str) (all : List ClassRec)
    (r : ClassRec) :
    r ∈ (filterClasses m sels all).1 ↔
      ∃ c, c ∈ all ∧ classId c ∈ sels ∧ r = addName m c := by
  induction all with
  | nil => simp [filterClasses]
  | cons c cs ih =>
    by_cases h : classId c ∈ sels
    · have he : (filterClasses m sels (c :: cs)).1 = addName m c :: (filterClasses m sels cs).1 := by
        simp [filterClasses, h]
      rw [he]
      constructor
      · intro hmem
        rcases List.mem_cons.mp hmem with rfl | h2
        · exact ⟨c, List.mem_cons_self _ _, h, rfl⟩
        · obtain ⟨c2, hc2, hs2, he2⟩ := ih.mp h2
          exact ⟨c2, List.mem_cons_of_mem _ hc2, hs2, he2⟩
      · rintro ⟨c2, hc2, hs2, rfl⟩
        rcases List.mem_cons.mp hc2 with rfl | h2
        · exact List.mem_cons_self _ _
        · exact List.mem_cons_of_mem _ (ih.mpr ⟨c2, h2, hs2, rfl⟩)
    · have he : (filterClasses m sels (c :: cs)).1 = (filterClasses m sels cs).1 := by
        simp [filterClasses, h]
      rw [he]
      constructor
      · intro hmem
        obtain ⟨c2, hc2, hs2, he2⟩ := ih.mp hmem
        exact ⟨c2, List.mem_cons_of_mem _ hc2, hs2, he2⟩
      · rintro ⟨c2, hc2, hs2, rfl⟩
        rcases List.mem_cons.mp hc2 with rfl | h2
        · exact absurd hs2 h
        · exact ih.mpr ⟨c2, h2, hs2, rfl⟩

/-- C4 counterexample: the filter loop mutates the input list in place
(a selected record gains the Course_Name key), so the traversed list is
not left unchanged. -/
theorem C4_counterexample :
    ¬ (filterClasses [] ["AB - C".data]
        [⟨"Mon".data, "N/A".data, "AB".data, "C".data, "DE".data, "ROOM".data, none⟩]).2 =
      [⟨"Mon".data, "N/A".data, "AB".data, "C".data, "DE".data, "ROOM".data, none⟩] := by
  decide

/-- C4 (amended): the filter step removes no record from the traversed
list and modifies none of the parsed fields; records not selected are
returned untouched, and selected records change only by gaining the
Course_Name key. -/
theorem C4_filter_frame (m : List (Str × Str)) (sels : List Str) (all : List ClassRec) :
    List.Forall₂ (fun a b =>
      b.Day = a.Day ∧ b.Time = a.Time ∧ b.Course_Abbreviation = a.Course_Abbreviation ∧
      b.Section = a.Section ∧ b.Faculty = a.Faculty ∧ b.Venue = a.Venue ∧
      (¬ classId a ∈ sels → b = a)) all (filterClasses m sels all).2 := by
  induction all with
  | nil =>
    have he : (filterClasses m sels []).2 = [] := rfl
    rw [he]
    exact List.Forall₂.nil
  | cons c cs ih =>
    by_cases h : classId c ∈ sels
    · have he : (filterClasses m sels (c :: cs)).2 = addName m c :: (filterClasses m sels cs).2 := by
        simp [filterClasses, h]
      rw [he]
      exact List.Forall₂.cons ⟨rfl, rfl, rfl, rfl, rfl, rfl, fun hn => absurd h hn⟩ ih
    · have he : (filterClasses m sels (c :: cs)).2 = c :: (filterClasses m sels cs).2 := by
        simp [filterClasses, h]
      rw [he]
      exact List.Forall₂.cons ⟨rfl, rfl, rfl, rfl, rfl, rfl, fun _ => rfl⟩ ih

/-- C7: filtering an already-filtered list with the same selection set
returns the same list. -/
theorem C7_filter_idempotent (m : List (Str × Str)) (sels : List Str) (all : List ClassRec) :
    (filterClasses m sels (filterClasses m sels all).1).1 = (filterClasses m sels all).1 := by
  induction all with
  | nil => rfl
  | cons c cs ih =>
    by_cases h : classId c ∈ sels
    · have he : (filterClasses m sels (c :: cs)).1 = addName m c :: (filterClasses m sels cs).1 := by
        simp [filterClasses, h]
      rw [he]
      have h2 : classId (addName m c) ∈ sels := h
      have he2 : (filterClasses m sels (addName m c :: (filterClasses m sels cs).1)).1 =
          addName m (addName m c) :: (filterClasses m sels (filterClasses m sels cs).1).1 := by
        simp [filterClasses, h2]
      rw [he2, ih]
      rfl
    · have he : (filterClasses m sels (c :: cs)).1 = (filterClasses m sels cs).1 := by
        simp [filterClasses, h]
      rw [he]
      exact ih

theorem processPages_trivial {pages : List (Option (List (List (Option Str))))}
    (h : ∀ t ∈ pages, t = none ∨ t = some []) (day : Option Str) :
    processPages day pages = (day, .ok []) := by
  induction pages generalizing day with
  | nil => rfl
  | cons p ps ih =>
    have hp : processPage day p = (day, .ok []) := by
      rcases h p (List.mem_cons_self _ _) with rfl | rfl <;> rfl
    unfold processPages
    rw [hp, ih (fun t ht => h t (List.mem_cons_of_mem _ ht))]
    rfl

/-- C9: filtering with an empty selection list yields the empty list, and
parsing a PDF whose pages have no extractable tables yields an empty
record list without an exception. -/
theorem C9_empty (m : List (Str × Str)) (all : List ClassRec)
    (pages : List (Option (List (List (Option Str)))))
    (h : ∀ t ∈ pages, t = none ∨ t = some []) :
    (filterClasses m [] all).1 = [] ∧ parse_timetable_pdf pages = .ok [] := by
  constructor
  · induction all with
    | nil => rfl
    | cons c cs ih =>
      have he : (filterClasses m [] (c :: cs)).1 = (filterClasses m [] cs).1 := by
        simp [filterClasses]
      rw [he]
      exact ih
  · have h2 : parse_timetable_pdf pages = (processPages none pages).2 := rfl
    rw [h2, processPages_trivial h none]

/-- Witness for C9 at a concrete record list and page list. -/
theorem C9_empty_witness :
    (filterClasses [] []
      [⟨"Mon".data, "N/A".data, "AB".data, "C".data, "DE".data, "ROOM".data, none⟩]).1 = [] ∧
    parse_timetable_pdf [none, some []] = .ok [] :=
  C9_empty [] [⟨"Mon".data, "N/A".data, "AB".data, "C".data, "DE".data, "ROOM".data, none⟩]
    [none, some []] (by decide)

/-- C8: the time slot of a produced record is the header-row cell at the
record's column index with newlines removed when the index is in range,
and the string "N/A" when the index is out of range. -/
theorem C8_time_slot (cdy : Option Str) (ts : List (Option Str)) (i : Nat) (e : Str)
    (out : List ClassRec) (r : ClassRec)
    (h : processEntry cdy ts i e = .ok out) (hr : r ∈ out) :
    (∀ t, ts.get? i = some (some t) → r.Time = pyRemoveNl t) ∧
    (ts.length ≤ i → r.Time = "N/A".data) := by
  unfold processEntry at h
  split at h
  · cases h
    exact absurd hr (List.not_mem_nil r)
  · split at h
    · exact Except.noConfusion h
    · next time_slot heq =>
      split at h
      · exact Except.noConfusion h
      · cases h
        rw [List.mem_singleton.mp hr]
        constructor
        · intro t ht
          have hlt : i < ts.length := by
            by_contra hge
            rw [List.get?_eq_none.mpr (Nat.le_of_not_lt hge)] at ht
            exact Option.noConfusion ht
          unfold timeSlotAt at heq
          rw [if_pos hlt, ht] at heq
          simp only [Option.join] at heq
          have heq2 : Except.ok (ε := Unit) (pyRemoveNl t) = .ok time_slot := heq
          cases heq2
          rfl
        · intro hge
          unfold timeSlotAt at heq
          rw [if_neg (Nat.not_lt.mpr hge)] at heq
          cases heq
          rfl

/-- Witness for C8: in-range lookup removes embedded newlines from the
header cell. -/
theorem C8_time_slot_witness :
    (⟨"Mon".data, "9:0010".data, "MFS".data, "A".data, "AB".data, "C - 402".data, none⟩ : ClassRec).Time =
      pyRemoveNl "9:00\n10".data :=
  (C8_time_slot (some "Mon".data) [some "H".data, some "9:00\n10".data] 1
    "MFS-A(6)- AB \x7bC - 402\x7d".data
    [⟨"Mon".data, "9:0010".data, "MFS".data, "A".data, "AB".data, "C - 402".data, none⟩]
    ⟨"Mon".data, "9:0010".data, "MFS".data, "A".data, "AB".data, "C - 402".data, none⟩
    (by decide) (by decide)).1 "9:00\n10".data (by decide)

/-- C10: a table whose data rows all have empty first columns while a
cell matches the pattern makes the parser read the unbound current-day
variable and abort with an error; once assigned, the day label persists
across later rows and pages. -/
theorem C10_unbound_day :
    parse_timetable_pdf [some [[some "H".data], [none, some "AB-C(1)- DE \x7bROOM\x7d".data]]] =
      .error () ∧
    parse_timetable_pdf
      [some [[some "H".data], [some "Monday".data, none]],
       some [[some "H2".data], [none, some "AB-C(1)- DE \x7bROOM\x7d".data]]] =
      .ok [⟨"Monday".data, "N/A".data, "AB".data, "C".data, "DE".data, "ROOM".data, none⟩] := by
  exact ⟨by decide, by decide⟩

/-- C2 counterexample: for the token `AB-C(1)- DE { X\nY }` the venue
field is "X Y", not the exact delimiter-bounded content " X\nY " (the
parser replaces the newline by a space and strips surrounding
whitespace); the captured session "1" is stored in no field. -/
theorem C2_counterexample :
    processEntry (some "Mon".data) [] 5 "AB-C(1)- DE \x7b X\nY \x7d".data =
      .ok [⟨"Mon".data, "N/A".data, "AB".data, "C".data, "DE".data, "X Y".data, none⟩] ∧
    ¬ "X Y".data = " X\nY ".data ∧
    ¬ "Mon".data = "1".data ∧ ¬ "N/A".data = "1".data ∧ ¬ "AB".data = "1".data ∧
    ¬ "C".data = "1".data ∧ ¬ "DE".data = "1".data ∧ ¬ "X Y".data = "1".data := by
  exact ⟨by decide, by decide, by decide, by decide, by decide, by decide, by decide, by decide⟩

/-- Witness for C2 (amended) at the token `MFS-A(6)- AB {C - 402}`. -/
theorem C2_token_parse_witness :
    processEntry (some "Mon".data) [] 1 "MFS-A(6)- AB \x7bC - 402\x7d".data =
      .ok [⟨"Mon".data, "N/A".data, "MFS".data, "A".data, "AB".data, "C - 402".data, none⟩] := by
  have h := C2_token_parse "MFS".data 'A' "6".data "AB".data "C - 402".data '\x7b' '\x7d'
    "Mon".data "N/A".data [] 1
    ⟨by decide, by decide⟩ (by decide) ⟨by decide, by decide⟩ ⟨by decide, by decide⟩
    (by intro c hc; simp at hc; rw [← hc]; decide)
    (by intro c hc; simp at hc; rw [← hc]; decide)
    ⟨by decide, by decide⟩ (by decide) (by rfl)
  exact h
